import Mathlib

/-!
# Verification of the attendance bot core (src/bot.py)

A shallow embedding of the attendance-collection state machine and the
reporting/aggregation code of `src/bot.py`, together with proofs about the
claims of the specification.

Modelling conventions:
* Attendance records, employees and holidays live in plain lists standing for
  the MongoDB collections; the store operations (unordered best-effort batch
  insert under the unique `(employee_id, date)` index, point lookups, the
  `$match`/`$group`/`$lookup`/`$unwind` aggregation stages) are modelled from
  the spec's description of the record store interface, since MongoDB itself
  is an external collaborator.
* Dates handled by the session/bulk-absence control flow are day ordinals
  (`Nat`), with `weekday n = n % 7` and day `0` a Monday, matching Python's
  `date.weekday()` (Monday = 0, Sunday = 6); stepping a day is `+ 1`.
* Store keys are the `DD-MM-YYYY` strings produced by `format_date`;
  MongoDB compares such string keys lexicographically by code point, which
  `strLe` reproduces on the underlying character lists.
* Python `/` (true division) is modelled as `divOpt` into `Option ℚ`:
  `none` is a raised `ZeroDivisionError`.
-/

namespace AttendanceBot

/-- Attendance status, the only two values ever written by the code
(`present_…`/`absent_…` callback data, `"absent"` in `multiday_absence`). -/
inductive Status where
  | present
  | absent
deriving DecidableEq, Repr

/-- One document of the `attendance` collection: `bot.py` inserts
`{employee_id, date, status, reason}` with `date` a `DD-MM-YYYY` string. -/
structure Record where
  employee_id : String
  date : String
  status : Status
  reason : String
deriving DecidableEq, Repr

/-- One document of the `employees` collection (`_id`, `name`, `active`). -/
structure Employee where
  id : String
  name : String
  active : Bool
deriving DecidableEq, Repr

/- ## Lexicographic string order (MongoDB key comparison) -/

/-- Lexicographic "less or equal" on character lists by code point; this is
how MongoDB orders the `DD-MM-YYYY` string keys in `$gte`/`$lte` range
matches and in `sort("date", -1)`. -/
def lexLe : List Char → List Char → Bool
  | [], _ => true
  | _ :: _, [] => false
  | a :: as, b :: bs =>
    if a.toNat < b.toNat then true
    else if b.toNat < a.toNat then false
    else lexLe as bs

/-- String comparison as performed by the store on date keys. -/
def strLe (a b : String) : Bool :=
  lexLe a.data b.data

theorem lexLe_refl : ∀ l : List Char, lexLe l l = true
  | [] => rfl
  | a :: as => by simp [lexLe, lexLe_refl as]

theorem char_eq_of_toNat_eq {a b : Char} (h : a.toNat = b.toNat) : a = b :=
  Char.ext_iff.mpr (UInt32.ext_iff.mpr h)

theorem lexLe_antisymm : ∀ {x y : List Char},
    lexLe x y = true → lexLe y x = true → x = y
  | [], [], _, _ => rfl
  | [], _ :: _, _, h => by simp [lexLe] at h
  | _ :: _, [], h, _ => by simp [lexLe] at h
  | a :: as, b :: bs, h₁, h₂ => by
    rcases Nat.lt_trichotomy a.toNat b.toNat with hlt | heq | hgt
    · simp [lexLe, hlt, Nat.lt_asymm hlt] at h₂
    · have hab : a = b := char_eq_of_toNat_eq heq
      subst hab
      simp only [lexLe, Nat.lt_irrefl, if_false] at h₁ h₂
      exact congrArg (a :: ·) (lexLe_antisymm h₁ h₂)
    · simp [lexLe, hgt, Nat.lt_asymm hgt] at h₁

theorem lexLe_total : ∀ x y : List Char, lexLe x y = true ∨ lexLe y x = true
  | [], _ => Or.inl rfl
  | _ :: _, [] => Or.inr rfl
  | a :: as, b :: bs => by
    rcases Nat.lt_trichotomy a.toNat b.toNat with hlt | heq | hgt
    · exact Or.inl (by simp [lexLe, hlt])
    · have hab : a = b := char_eq_of_toNat_eq heq
      subst hab
      rcases lexLe_total as bs with h | h
      · exact Or.inl (by simp [lexLe, h])
      · exact Or.inr (by simp [lexLe, h])
    · exact Or.inr (by simp [lexLe, hgt])

theorem lexLe_trans : ∀ {x y z : List Char},
    lexLe x y = true → lexLe y z = true → lexLe x z = true
  | [], _, _, _, _ => rfl
  | _ :: _, [], _, h, _ => by simp [lexLe] at h
  | _ :: _, _ :: _, [], _, h => by simp [lexLe] at h
  | a :: as, b :: bs, c :: cs, h₁, h₂ => by
    rcases Nat.lt_trichotomy a.toNat b.toNat with hab | hab | hab
    · rcases Nat.lt_trichotomy b.toNat c.toNat with hbc | hbc | hbc
      · exact (by simp [lexLe, Nat.lt_trans hab hbc])
      · exact (by simp [lexLe, hbc ▸ hab])
      · simp [lexLe, hbc, Nat.lt_asymm hbc] at h₂
    · have : a = b := char_eq_of_toNat_eq hab
      subst this
      simp only [lexLe, Nat.lt_irrefl, if_false] at h₁
      rcases Nat.lt_trichotomy a.toNat c.toNat with hac | hac | hac
      · simp [lexLe, hac]
      · have : a = c := char_eq_of_toNat_eq hac
        subst this
        simp only [lexLe, Nat.lt_irrefl, if_false] at h₂ ⊢
        exact lexLe_trans h₁ h₂
      · simp [lexLe, hac, Nat.lt_asymm hac] at h₂
    · simp [lexLe, hab, Nat.lt_asymm hab] at h₁

theorem strLe_refl (a : String) : strLe a a = true :=
  lexLe_refl a.data

theorem strLe_antisymm {a b : String} (h₁ : strLe a b = true)
    (h₂ : strLe b a = true) : a = b := by
  apply String.ext
  exact lexLe_antisymm h₁ h₂

theorem strLe_total (a b : String) : strLe a b = true ∨ strLe b a = true :=
  lexLe_total a.data b.data

theorem strLe_trans {a b c : String} (h₁ : strLe a b = true)
    (h₂ : strLe b c = true) : strLe a c = true :=
  lexLe_trans h₁ h₂

theorem lexLe_cons_cons_same (a : Char) (xs ys : List Char) :
    lexLe (a :: xs) (a :: ys) = lexLe xs ys := by
  simp [lexLe]

/-- Splitting a lexicographic comparison at equal-length leading blocks. -/
theorem lexLe_append_append : ∀ {xs ys : List Char}, xs.length = ys.length →
    ∀ t u : List Char,
    lexLe (xs ++ t) (ys ++ u) = if xs = ys then lexLe t u else lexLe xs ys
  | [], [], _, t, u => by simp
  | [], _ :: _, h, _, _ => by simp at h
  | _ :: _, [], h, _, _ => by simp at h
  | a :: as, b :: bs, h, t, u => by
    have hlen : as.length = bs.length := by simpa using h
    rcases Nat.lt_trichotomy a.toNat b.toNat with hab | hab | hab
    · have hne : a ≠ b := fun e => by simp [e] at hab
      simp [lexLe, hab, hne]
    · have hab' : a = b := char_eq_of_toNat_eq hab
      subst hab'
      rw [List.cons_append, List.cons_append, lexLe_cons_cons_same,
        lexLe_append_append hlen t u]
      by_cases hasbs : as = bs
      · simp [hasbs]
      · simp [hasbs, lexLe_cons_cons_same]
    · have hne : a ≠ b := fun e => by simp [e] at hab
      simp [lexLe, hab, Nat.lt_asymm hab, hne]

/- ## Dates and the DD-MM-YYYY encoding (`format_date`) -/

/-- A calendar date (year, month, day). -/
structure Date where
  year : Nat
  month : Nat
  day : Nat
deriving DecidableEq, Repr

/-- Chronological strict order on calendar dates. -/
def Date.chronLt (a b : Date) : Prop :=
  a.year < b.year ∨
    (a.year = b.year ∧
      (a.month < b.month ∨ (a.month = b.month ∧ a.day < b.day)))

/-- Chronological order on calendar dates. -/
def Date.chronLe (a b : Date) : Prop :=
  Date.chronLt a b ∨ a = b

instance (a b : Date) : Decidable (Date.chronLt a b) := by
  unfold Date.chronLt
  infer_instance

instance (a b : Date) : Decidable (Date.chronLe a b) := by
  unfold Date.chronLe
  infer_instance

/-- Zero-pad the decimal representation of `n` to width `w`
(the behaviour of `strftime`'s `%d`, `%m`, `%Y` fields). -/
def padNum (w n : Nat) : String :=
  String.mk (List.replicate (w - n.repr.length) '0' ++ n.repr.data)

/-- `format_date` of `bot.py`: format a date as `DD-MM-YYYY`
(`date.strftime("%d-%m-%Y")`). This string is the store key. -/
def format_date (d : Date) : String :=
  padNum 2 d.day ++ "-" ++ padNum 2 d.month ++ "-" ++ padNum 4 d.year

/-- The `$match` range predicate of `generate_period_report`:
`{"date": {"$gte": start_str, "$lte": end_str}}`, a string comparison. -/
def periodMatch (sstr estr : String) (r : Record) : Bool :=
  strLe sstr r.date && strLe r.date estr

/-- Records of the store matched by the period range filter. -/
def periodMatched (store : List Record) (sstr estr : String) : List Record :=
  store.filter (periodMatch sstr estr)

/-- The comparison used by `employee_report`'s `sort("date", -1)`:
descending order of the `DD-MM-YYYY` date strings. -/
def dateDesc (a b : Record) : Prop :=
  strLe b.date a.date = true

instance (a b : Record) : Decidable (dateDesc a b) := by
  unfold dateDesc
  infer_instance

theorem format_date_data (d : Date) :
    (format_date d).data = (padNum 2 d.day).data ++
      ('-' :: ((padNum 2 d.month).data ++ ('-' :: (padNum 4 d.year).data))) := by
  show ((((padNum 2 d.day ++ "-") ++ padNum 2 d.month) ++ "-") ++
      padNum 4 d.year).data = _
  simp only [String.data_append, List.append_assoc]
  rfl

theorem pad2_length : ∀ n < 100, ((padNum 2 n).data).length = 2 := by decide

/-- Exhaustive comparison of zero-padded two-digit day fields. -/
theorem pad2_lexLe_eq_decide_le : ∀ d1 < 32, ∀ d2 < 32,
    (if (padNum 2 d1).data = (padNum 2 d2).data then true
     else lexLe (padNum 2 d1).data (padNum 2 d2).data) = decide (d1 ≤ d2) := by
  decide

/-- Within one calendar month the string order of `DD-MM-YYYY` keys agrees
with the day order. -/
theorem strLe_format_date_same_month (y m d1 d2 : Nat)
    (h1 : 1 ≤ d1) (h1' : d1 ≤ 31) (h2 : 1 ≤ d2) (h2' : d2 ≤ 31) :
    (strLe (format_date ⟨y, m, d1⟩) (format_date ⟨y, m, d2⟩) = true ↔ d1 ≤ d2) := by
  have hl1 : ((padNum 2 d1).data).length = 2 := pad2_length d1 (by omega)
  have hl2 : ((padNum 2 d2).data).length = 2 := pad2_length d2 (by omega)
  unfold strLe
  rw [format_date_data, format_date_data]
  dsimp only
  rw [lexLe_append_append (by rw [hl1, hl2]), lexLe_refl,
    pad2_lexLe_eq_decide_le d1 (by omega) d2 (by omega)]
  simp

/-- C9: the DD-MM-YYYY store-key encoding is not monotone with respect to
chronological order: inside one calendar month string order and date order
agree, but across months there are chronologically increasing date pairs
whose keys compare the other way; the period-report range filter and the
recency sort of `employee_report` both compare exactly these strings. -/
theorem C9_format_date_not_monotone :
    (∀ y m d1 d2 : Nat, 1 ≤ d1 → d1 ≤ 31 → 1 ≤ d2 → d2 ≤ 31 →
      (strLe (format_date ⟨y, m, d1⟩) (format_date ⟨y, m, d2⟩) = true ↔
        d1 ≤ d2)) ∧
    (Date.chronLt ⟨2025, 1, 31⟩ ⟨2025, 2, 1⟩ ∧
      strLe (format_date ⟨2025, 1, 31⟩) (format_date ⟨2025, 2, 1⟩) = false ∧
      strLe (format_date ⟨2025, 2, 1⟩) (format_date ⟨2025, 1, 31⟩) = true) ∧
    (∀ s e : String, ∀ r : Record,
      periodMatch s e r = (strLe s r.date && strLe r.date e)) ∧
    (∀ a b : Record, dateDesc a b ↔ strLe b.date a.date = true) := by
  refine ⟨fun y m d1 d2 h1 h1' h2 h2' =>
    strLe_format_date_same_month y m d1 d2 h1 h1' h2 h2', ?_, ?_, ?_⟩
  · exact ⟨by decide, by decide, by decide⟩
  · intro s e r
    rfl
  · intro a b
    exact Iff.rfl

/-- Witness for C9 at a concrete same-month pair of dates. -/
theorem C9_format_date_not_monotone_witness :
    (1 ≤ 5 ∧ 5 ≤ 31 ∧ 1 ≤ 17 ∧ 17 ≤ 31) ∧
    (strLe (format_date ⟨2025, 3, 5⟩) (format_date ⟨2025, 3, 17⟩) = true ↔
      5 ≤ 17) :=
  ⟨by decide, C9_format_date_not_monotone.1 2025 3 5 17
    (by decide) (by decide) (by decide) (by decide)⟩

/- ## The attendance session state machine
(`mark_attendance` / `handle_attendance_choice` / `handle_reason` /
`next_employee` / `finalize_attendance` of `bot.py`) -/

/-- One accumulator entry of `user_data['attendance_flow']['attendance']`:
the Python dict `{'status': ..., 'reason'?: ...}` where the `reason` key is
present only after `handle_reason` stored one. -/
structure Entry where
  status : Status
  reason : Option String
deriving DecidableEq, Repr

/-- The conversation position: `MARKING_ATTENDANCE`, or `GETTING_REASON`
together with `user_data['attendance_flow']['current_employee']`. -/
inductive Phase where
  | marking
  | gettingReason (empId : String)
deriving DecidableEq, Repr

/-- `user_data['attendance_flow']`: the snapshotted employee list, the
`current_index` cursor, the accumulating per-employee `attendance` dict
(an insertion-ordered association list, like a Python dict), and the
conversation phase. `attendance_map` is not stored separately: it is the
derived map `str(i+1) -> employees[i]._id`, recomputed by `lookupSimple`. -/
structure Session where
  employees : List Employee
  currentIndex : Nat
  acc : List (String × Entry)
  phase : Phase
deriving DecidableEq, Repr

/-- `attendance_map[simple_id]`: simple ids `"1" .. str(n)` map to the
employee ids in snapshot order; any other key raises `KeyError` (`none`). -/
def lookupSimple (emps : List Employee) (k : Nat) : Option String :=
  if h : 1 ≤ k ∧ k ≤ emps.length then some (emps.get ⟨k - 1, by omega⟩).id
  else none

/-- Python dict assignment `d[k] = v`: replace the value in place if the key
exists (keeping its position), else append the new binding. -/
def upsert (acc : List (String × Entry)) (k : String) (v : Entry) :
    List (String × Entry) :=
  if acc.any (fun p => p.1 == k) then
    acc.map (fun p => if p.1 == k then (k, v) else p)
  else acc ++ [(k, v)]

/-- `handle_reason`'s mutation `d[emp_id]['reason'] = reason`. -/
def setReason (acc : List (String × Entry)) (k : String) (r : String) :
    List (String × Entry) :=
  acc.map (fun p => if p.1 == k then (p.1, { p.2 with reason := some r }) else p)

/-- The record batch built by `finalize_attendance` from the accumulator:
one record per entry, keyed to today's date string, with
`data.get('reason', "")` as the reason. -/
def buildRecords (todayStr : String) (acc : List (String × Entry)) :
    List Record :=
  acc.map (fun p => ⟨p.1, todayStr, p.2.status, p.2.reason.getD ""⟩)

/-- The two kinds of user action events the conversation dispatches:
an inline-keyboard callback `present_k`/`absent_k` and a free-text reason. -/
inductive Event where
  | decision (choice : Status) (simpleId : Nat)
  | reasonText (text : String)
deriving DecidableEq, Repr

/-- Result of one dispatched event: the conversation continues with a new
session, the session finalized producing a record batch, or the event was
rejected/raised with no state change. -/
inductive StepResult where
  | next (s : Session)
  | finished (records : List Record)
  | invalid
deriving DecidableEq, Repr

/-- `next_employee`: advance the cursor; past the last employee this runs
`finalize_attendance`, whose record batch the result carries. -/
def next_employee (todayStr : String) (s : Session) : StepResult :=
  let ci := s.currentIndex + 1
  if ci ≥ s.employees.length then .finished (buildRecords todayStr s.acc)
  else .next { s with currentIndex := ci, phase := .marking }

/-- `handle_attendance_choice`: look the callback's simple id up in
`attendance_map` (KeyError when absent, before any mutation), store
`{'status': status}` for that employee, then either ask for a reason
(absent) or advance (present). The cursor index is never compared with the
callback's simple id. -/
def handle_attendance_choice (todayStr : String) (s : Session)
    (choice : Status) (simpleId : Nat) : StepResult :=
  match lookupSimple s.employees simpleId with
  | none => .invalid
  | some empId =>
    let s' := { s with acc := upsert s.acc empId ⟨choice, none⟩ }
    match choice with
    | .absent => .next { s' with phase := .gettingReason empId }
    | .present => next_employee todayStr s'

/-- `handle_reason`: attach the text as the current employee's reason and
advance. -/
def handle_reason (todayStr : String) (s : Session) (text : String) :
    StepResult :=
  match s.phase with
  | .gettingReason empId =>
      next_employee todayStr { s with acc := setReason s.acc empId text }
  | .marking => .invalid

/-- The `ConversationHandler` routing: callback decisions are handled only
in `MARKING_ATTENDANCE`, reason text only in `GETTING_REASON`; any other
event is not dispatched to a session handler (no state change). -/
def step (todayStr : String) (s : Session) (ev : Event) : StepResult :=
  match ev, s.phase with
  | .decision c k, .marking => handle_attendance_choice todayStr s c k
  | .reasonText t, .gettingReason _ => handle_reason todayStr s t
  | _, _ => .invalid

/-- The session created by a successful `mark_attendance`. -/
def startSession (activeList : List Employee) : Session :=
  { employees := activeList, currentIndex := 0, acc := [], phase := .marking }

/-- Python's `date.weekday()`: Monday = 0 .. Sunday = 6; day ordinals are
chosen with day 0 a Monday. -/
def weekday (n : Nat) : Nat := n % 7

/-- The user-facing notices `mark_attendance` can produce. -/
inductive Notice where
  | sundayNotice
  | holidayNotice
  | noActiveEmployees
  | askFirst (name : String)
deriving DecidableEq, Repr

/-- `mark_attendance`: reject Sundays, holidays and an empty active-employee
list without touching the session store; otherwise snapshot the active
employees and (re)create the session, prompting for the first employee. -/
def mark_attendance (today : Nat) (isHoliday : Nat → Bool)
    (emps : List Employee) (sessionStore : Option Session) :
    Option Session × Notice :=
  if weekday today == 6 then (sessionStore, .sundayNotice)
  else if isHoliday today then (sessionStore, .holidayNotice)
  else
    match emps.filter (fun e => e.active) with
    | [] => (sessionStore, .noActiveEmployees)
    | e :: rest => (some (startSession (e :: rest)), .askFirst e.name)

/-- Outcome of dispatching a whole list of events to one session. -/
inductive RunResult where
  | inProgress (s : Session)
  | finished (records : List Record)
  | invalidTrace
deriving DecidableEq, Repr

/-- Dispatch a list of events: a rejected event leaves the session as it
was and the conversation continues; events arriving after finalization
destroyed the session make the trace invalid. -/
def runEvents (todayStr : String) (s : Session) : List Event → RunResult
  | [] => .inProgress s
  | ev :: evs =>
    match step todayStr s ev with
    | .next s' => runEvents todayStr s' evs
    | .invalid => runEvents todayStr s evs
    | .finished recs =>
      match evs with
      | [] => .finished recs
      | _ :: _ => .invalidTrace

/-- A complete per-employee decision script: the canonical interaction in
which every snapshotted employee receives exactly one decision (in cursor
order) and every absent decision is followed by one reason message. -/
inductive Dec where
  | present
  | absentWith (reason : String)
deriving DecidableEq, Repr

/-- The event trace of a decision script, starting at simple id `k`. -/
def mkEvents : Nat → List Dec → List Event
  | _, [] => []
  | k, .present :: ds => .decision .present k :: mkEvents (k + 1) ds
  | k, .absentWith r :: ds =>
      .decision .absent k :: .reasonText r :: mkEvents (k + 1) ds

/- ## Helper lemmas about the accumulator and the snapshot -/

theorem getElem_not_mem_take {α : Type} {l : List α} (h : l.Nodup) {k : Nat}
    (hk : k < l.length) : l[k] ∉ l.take k := by
  intro hmem
  have hsplit : (l.take k ++ l.drop k).Nodup := by
    rw [List.take_append_drop]
    exact h
  rw [List.nodup_append] at hsplit
  have hdrop : l[k] ∈ l.drop k := by
    have h0 : (0 : Nat) < (l.drop k).length := by simp; omega
    have heq : (l.drop k)[0] = l[k] := by
      rw [List.getElem_drop]; simp
    rw [← heq]
    exact List.getElem_mem h0
  exact hsplit.2.2 hmem hdrop

theorem any_key_iff (acc : List (String × Entry)) (k : String) :
    acc.any (fun p => p.1 == k) = true ↔ k ∈ acc.map Prod.fst := by
  simp [List.any_eq_true, beq_iff_eq, List.mem_map]

theorem upsert_of_not_mem {acc : List (String × Entry)} {k : String}
    (h : k ∉ acc.map Prod.fst) (v : Entry) :
    upsert acc k v = acc ++ [(k, v)] := by
  unfold upsert
  rw [if_neg]
  intro hc
  exact h ((any_key_iff acc k).1 hc)

theorem setReason_of_not_mem {acc : List (String × Entry)} {k : String}
    (h : k ∉ acc.map Prod.fst) (r : String) :
    setReason acc k r = acc := by
  induction acc with
  | nil => rfl
  | cons p t ih =>
    have hp : p.1 ≠ k := by
      intro he
      exact h (by simp [← he])
    have ht : k ∉ t.map Prod.fst := by
      intro hm
      exact h (by simp [hm])
    have hcons : setReason (p :: t) k r =
        (if p.1 == k then (p.1, { p.2 with reason := some r }) else p) ::
          setReason t k r := rfl
    rw [hcons, if_neg (by simpa using hp), ih ht]

theorem setReason_append (acc l : List (String × Entry)) (k r : String) :
    setReason (acc ++ l) k r = setReason acc k r ++ setReason l k r :=
  List.map_append _ _ _

theorem lookupSimple_of_lt (emps : List Employee) (k : Nat)
    (hk : k < emps.length) :
    lookupSimple emps (k + 1) = some (emps[k]).id := by
  unfold lookupSimple
  rw [dif_pos ⟨by omega, by omega⟩]
  rfl

theorem snapshot_id_not_mem (emps : List Employee)
    (hnd : (emps.map Employee.id).Nodup) (k : Nat) (hk : k < emps.length)
    (pre : List (String × Entry))
    (hpre : pre.map Prod.fst = (emps.map Employee.id).take k) :
    (emps[k]).id ∉ pre.map Prod.fst := by
  rw [hpre]
  have hk' : k < (emps.map Employee.id).length := by simpa using hk
  have hidq : (emps.map Employee.id)[k] = (emps[k]).id := by
    simp
  rw [← hidq]
  exact getElem_not_mem_take hnd hk'

theorem keys_append_single (emps : List Employee)
    (pre : List (String × Entry)) (k : Nat) (hk : k < emps.length) (e : Entry)
    (hpre : pre.map Prod.fst = (emps.map Employee.id).take k) :
    (pre ++ [((emps[k]).id, e)]).map Prod.fst =
      (emps.map Employee.id).take (k + 1) := by
  rw [List.map_append, hpre]
  have hk' : k < (emps.map Employee.id).length := by simpa using hk
  rw [← List.take_concat_get (emps.map Employee.id) k hk',
    List.concat_eq_append]
  simp

theorem step_decision_eq (todayStr : String) (emps : List Employee) (k : Nat)
    (pre : List (String × Entry)) (hk : k < emps.length) (c : Status)
    (hnm : (emps[k]).id ∉ pre.map Prod.fst) :
    step todayStr ⟨emps, k, pre, .marking⟩ (.decision c (k + 1)) =
      match c with
      | .present => next_employee todayStr
          ⟨emps, k, pre ++ [((emps[k]).id, (⟨.present, none⟩ : Entry))],
            .marking⟩
      | .absent => .next
          ⟨emps, k, pre ++ [((emps[k]).id, (⟨.absent, none⟩ : Entry))],
            .gettingReason (emps[k]).id⟩ := by
  cases c <;>
    simp [step, handle_attendance_choice, lookupSimple_of_lt emps k hk,
      upsert_of_not_mem hnm]

theorem next_employee_last (todayStr : String) (s : Session)
    (h : s.currentIndex + 1 ≥ s.employees.length) :
    next_employee todayStr s = .finished (buildRecords todayStr s.acc) := by
  simp [next_employee, h]

theorem next_employee_more (todayStr : String) (s : Session)
    (h : ¬ s.currentIndex + 1 ≥ s.employees.length) :
    next_employee todayStr s =
      .next { s with currentIndex := s.currentIndex + 1, phase := .marking } := by
  simp [next_employee, h]

theorem runEvents_cons_next (todayStr : String) (s : Session) (ev : Event)
    (evs : List Event) (s' : Session) (h : step todayStr s ev = .next s') :
    runEvents todayStr s (ev :: evs) = runEvents todayStr s' evs := by
  simp [runEvents, h]

theorem runEvents_last_finished (todayStr : String) (s : Session) (ev : Event)
    (recs : List Record) (h : step todayStr s ev = .finished recs) :
    runEvents todayStr s [ev] = .finished recs := by
  simp [runEvents, h]

/-- Running the canonical decision script from cursor `k` with the first `k`
employees already accumulated finishes the session with one accumulator
entry per snapshotted employee, in snapshot order. -/
theorem runEvents_script (todayStr : String) (emps : List Employee)
    (hnd : (emps.map Employee.id).Nodup) :
    ∀ (ds : List Dec) (k : Nat) (pre : List (String × Entry)),
      k + ds.length = emps.length → ds ≠ [] →
      pre.map Prod.fst = (emps.map Employee.id).take k →
      ∃ acc,
        runEvents todayStr ⟨emps, k, pre, .marking⟩ (mkEvents (k + 1) ds) =
          .finished (buildRecords todayStr acc) ∧
        acc.map Prod.fst = emps.map Employee.id := by
  intro ds
  induction ds with
  | nil =>
    intro k pre _ hne _
    exact absurd rfl hne
  | cons d ds ih =>
    intro k pre hlen _ hpre
    have hk : k < emps.length := by
      simp only [List.length_cons] at hlen
      omega
    have hnm : (emps[k]).id ∉ pre.map Prod.fst :=
      snapshot_id_not_mem emps hnd k hk pre hpre
    have hmaplen : (emps.map Employee.id).length = emps.length := by simp
    by_cases hend : k + 1 ≥ emps.length
    · -- this is the last employee: the advance runs finalize_attendance
      have hds : ds = [] :=
        List.length_eq_zero.mp (by simp only [List.length_cons] at hlen; omega)
      subst hds
      have hkeysfull : ∀ e : Entry,
          (pre ++ [((emps[k]).id, e)]).map Prod.fst =
            emps.map Employee.id := by
        intro e
        rw [keys_append_single emps pre k hk e hpre]
        have hkn : k + 1 = emps.length := by omega
        rw [hkn, ← hmaplen, List.take_length]
      cases d with
      | present =>
        refine ⟨pre ++ [((emps[k]).id, ⟨.present, none⟩)], ?_,
          hkeysfull _⟩
        show runEvents todayStr ⟨emps, k, pre, .marking⟩
          [.decision .present (k + 1)] = _
        apply runEvents_last_finished
        rw [step_decision_eq todayStr emps k pre hk .present hnm]
        exact next_employee_last todayStr _ (by simpa using hend)
      | absentWith r =>
        have hsr : setReason
            (pre ++ [((emps[k]).id, ⟨.absent, none⟩)])
            (emps[k]).id r =
            pre ++ [((emps[k]).id, ⟨.absent, some r⟩)] := by
          rw [setReason_append, setReason_of_not_mem hnm]
          simp [setReason]
        refine ⟨pre ++ [((emps[k]).id, ⟨.absent, some r⟩)], ?_,
          hkeysfull _⟩
        show runEvents todayStr ⟨emps, k, pre, .marking⟩
          [.decision .absent (k + 1), .reasonText r] = _
        rw [runEvents_cons_next todayStr _ _ _
          ⟨emps, k, pre ++ [((emps[k]).id, ⟨.absent, none⟩)],
            .gettingReason (emps[k]).id⟩
          (step_decision_eq todayStr emps k pre hk .absent hnm)]
        apply runEvents_last_finished
        show next_employee todayStr
          ⟨emps, k, setReason (pre ++ [((emps[k]).id, ⟨.absent, none⟩)])
            (emps[k]).id r, .gettingReason (emps[k]).id⟩ =
          .finished (buildRecords todayStr
            (pre ++ [((emps[k]).id, ⟨.absent, some r⟩)]))
        rw [hsr]
        exact next_employee_last todayStr _ (by simpa using hend)
    · -- further employees follow: the advance re-enters AwaitingDecision
      have hlen' : (k + 1) + ds.length = emps.length := by
        simp only [List.length_cons] at hlen
        omega
      have hne' : ds ≠ [] := by
        intro h0
        rw [h0] at hlen'
        simp at hlen'
        omega
      cases d with
      | present =>
        obtain ⟨acc, hrun, hkeys⟩ := ih (k + 1)
          (pre ++ [((emps[k]).id, ⟨.present, none⟩)]) hlen' hne'
          (keys_append_single emps pre k hk _ hpre)
        refine ⟨acc, ?_, hkeys⟩
        show runEvents todayStr ⟨emps, k, pre, .marking⟩
          (.decision .present (k + 1) :: mkEvents (k + 1 + 1) ds) = _
        rw [runEvents_cons_next todayStr _ _ _
          ⟨emps, k + 1, pre ++ [((emps[k]).id, ⟨.present, none⟩)],
            .marking⟩ ?hstep]
        · exact hrun
        case hstep =>
          rw [step_decision_eq todayStr emps k pre hk .present hnm]
          exact next_employee_more todayStr _ (by simpa using hend)
      | absentWith r =>
        have hsr : setReason
            (pre ++ [((emps[k]).id, ⟨.absent, none⟩)])
            (emps[k]).id r =
            pre ++ [((emps[k]).id, ⟨.absent, some r⟩)] := by
          rw [setReason_append, setReason_of_not_mem hnm]
          simp [setReason]
        obtain ⟨acc, hrun, hkeys⟩ := ih (k + 1)
          (pre ++ [((emps[k]).id, ⟨.absent, some r⟩)]) hlen' hne'
          (keys_append_single emps pre k hk _ hpre)
        refine ⟨acc, ?_, hkeys⟩
        show runEvents todayStr ⟨emps, k, pre, .marking⟩
          (.decision .absent (k + 1) :: .reasonText r ::
            mkEvents (k + 1 + 1) ds) = _
        rw [runEvents_cons_next todayStr _ _ _
          ⟨emps, k, pre ++ [((emps[k]).id, ⟨.absent, none⟩)],
            .gettingReason (emps[k]).id⟩
          (step_decision_eq todayStr emps k pre hk .absent hnm)]
        rw [runEvents_cons_next todayStr _ _ _
          ⟨emps, k + 1, pre ++ [((emps[k]).id, ⟨.absent, some r⟩)],
            .marking⟩ ?hstep2]
        · exact hrun
        case hstep2 =>
          show next_employee todayStr
            ⟨emps, k, setReason (pre ++ [((emps[k]).id, ⟨.absent, none⟩)])
              (emps[k]).id r, .gettingReason (emps[k]).id⟩ =
            .next ⟨emps, k + 1,
              pre ++ [((emps[k]).id, ⟨.absent, some r⟩)], .marking⟩
          rw [hsr]
          exact next_employee_more todayStr _ (by simpa using hend)

/-- C1: a session that runs from Start to Finalize — every snapshotted
employee decided exactly once in cursor order, with a reason message after
each absent decision — finalizes with a batch of exactly one
`AttendanceRecord` per snapshotted employee, each keyed to today's date
and each carrying exactly one status out of present/absent. -/
theorem C1_finalize_one_record_per_employee (todayStr : String)
    (emps : List Employee) (ds : List Dec) (hne : emps ≠ [])
    (hlen : ds.length = emps.length)
    (hnd : (emps.map Employee.id).Nodup) :
    ∃ recs,
      runEvents todayStr (startSession emps) (mkEvents 1 ds) =
        .finished recs ∧
      recs.length = emps.length ∧
      ∀ r ∈ recs, r.date = todayStr ∧
        (r.status = .present ∨ r.status = .absent) := by
  have hds : ds ≠ [] := by
    intro h0
    rw [h0] at hlen
    cases emps with
    | nil => exact hne rfl
    | cons e t => simp at hlen
  obtain ⟨acc, hrun, hkeys⟩ := runEvents_script todayStr emps hnd ds 0 []
    (by simpa using hlen) hds (by simp)
  refine ⟨buildRecords todayStr acc, hrun, ?_, ?_⟩
  · have hal : acc.length = (emps.map Employee.id).length := by
      rw [← hkeys]
      simp
    simp only [buildRecords, List.length_map] at hal ⊢
    simpa using hal
  · intro r hr
    obtain ⟨p, _, hp⟩ := List.mem_map.1 hr
    refine ⟨by rw [← hp], ?_⟩
    cases hrs : r.status with
    | present => exact Or.inl rfl
    | absent => exact Or.inr rfl

/-- Witness for C1: two employees, one present and one absent with reason. -/
theorem C1_finalize_one_record_per_employee_witness :
    (([⟨"e1", "Alice", true⟩, ⟨"e2", "Bob", true⟩] : List Employee) ≠ [] ∧
      ([Dec.present, Dec.absentWith "sick"].length =
        ([⟨"e1", "Alice", true⟩, ⟨"e2", "Bob", true⟩] :
          List Employee).length) ∧
      (([⟨"e1", "Alice", true⟩, ⟨"e2", "Bob", true⟩] :
        List Employee).map Employee.id).Nodup) ∧
    (∃ recs,
      runEvents "01-01-2025"
          (startSession [⟨"e1", "Alice", true⟩, ⟨"e2", "Bob", true⟩])
          (mkEvents 1 [Dec.present, Dec.absentWith "sick"]) =
        .finished recs ∧
      recs.length =
        ([⟨"e1", "Alice", true⟩, ⟨"e2", "Bob", true⟩] :
          List Employee).length ∧
      ∀ r ∈ recs, r.date = "01-01-2025" ∧
        (r.status = .present ∨ r.status = .absent)) :=
  ⟨⟨by decide, by decide, by decide⟩,
    C1_finalize_one_record_per_employee "01-01-2025"
      [⟨"e1", "Alice", true⟩, ⟨"e2", "Bob", true⟩]
      [Dec.present, Dec.absentWith "sick"]
      (by decide) (by decide) (by decide)⟩

/-- C2: when today is Sunday, or today is a holiday, or no active employee
exists, `mark_attendance` leaves the session store unchanged and produces a
user-facing notice (never the first-employee prompt); any later invocation
the same day under the same conditions again changes nothing and produces
the identical notice. -/
theorem C2_start_preconditions (today : Nat) (isHoliday : Nat → Bool)
    (emps : List Employee) (st : Option Session)
    (h : weekday today = 6 ∨ isHoliday today = true ∨
      emps.filter (fun e => e.active) = []) :
    (mark_attendance today isHoliday emps st).1 = st ∧
    (∀ name, (mark_attendance today isHoliday emps st).2 ≠
      .askFirst name) ∧
    (∀ st' : Option Session,
      (mark_attendance today isHoliday emps st').1 = st' ∧
      (mark_attendance today isHoliday emps st').2 =
        (mark_attendance today isHoliday emps st).2) := by
  by_cases h1 : weekday today == 6
  · simp [mark_attendance, h1]
  · by_cases h2 : isHoliday today
    · simp [mark_attendance, h1, h2]
    · have h3 : emps.filter (fun e => e.active) = [] := by
        rcases h with h | h | h
        · exact absurd (by simp [h]) h1
        · exact absurd h (by simpa using h2)
        · exact h
      simp [mark_attendance, h1, h2, h3]

/-- Witness for C2: a Sunday (day ordinal 6), no holidays, one active
employee, empty session store. -/
theorem C2_start_preconditions_witness :
    (weekday 6 = 6 ∨ (fun _ : Nat => false) 6 = true ∨
      ([⟨"e1", "Alice", true⟩] : List Employee).filter
        (fun e => e.active) = []) ∧
    ((mark_attendance 6 (fun _ => false) [⟨"e1", "Alice", true⟩] none).1 =
        none ∧
      (∀ name, (mark_attendance 6 (fun _ => false)
        [⟨"e1", "Alice", true⟩] none).2 ≠ .askFirst name) ∧
      (∀ st' : Option Session,
        (mark_attendance 6 (fun _ => false)
          [⟨"e1", "Alice", true⟩] st').1 = st' ∧
        (mark_attendance 6 (fun _ => false)
          [⟨"e1", "Alice", true⟩] st').2 =
          (mark_attendance 6 (fun _ => false)
            [⟨"e1", "Alice", true⟩] none).2)) :=
  ⟨Or.inl (by decide),
    C2_start_preconditions 6 (fun _ => false) [⟨"e1", "Alice", true⟩] none
      (Or.inl (by decide))⟩

/- ## C3: how decision events are validated -/

theorem lookupSimple_eq_some (emps : List Employee) (k : Nat)
    (h1 : 1 ≤ k) (h2 : k ≤ emps.length) :
    lookupSimple emps k = some ((emps[k - 1]).id) := by
  unfold lookupSimple
  rw [dif_pos ⟨h1, h2⟩]
  rfl

theorem mem_keys_upsert (acc : List (String × Entry)) (k : String)
    (v : Entry) : k ∈ (upsert acc k v).map Prod.fst := by
  unfold upsert
  by_cases h : acc.any (fun p => p.1 == k)
  · rw [if_pos h]
    obtain ⟨p, hp, hpk⟩ := List.any_eq_true.1 h
    refine List.mem_map.2 ⟨(k, v), ?_, rfl⟩
    refine List.mem_map.2 ⟨p, hp, ?_⟩
    simp [show p.1 == k from hpk]
  · rw [if_neg h]
    simp

theorem buildRecords_map_employee_id (todayStr : String)
    (acc : List (String × Entry)) :
    (buildRecords todayStr acc).map Record.employee_id =
      acc.map Prod.fst := by
  simp [buildRecords]

/-- C3 (amended): a decision event whose simple id is out of range fails
(`KeyError` before any mutation: no state change), but an in-range simple
id is accepted whether or not it matches the cursor index: the referenced
employee — not the cursor employee — receives the status, and the flow
advances. -/
theorem C3_decision_reference_validation (todayStr : String) (s : Session)
    (c : Status) (k : Nat) (hph : s.phase = .marking) :
    (¬(1 ≤ k ∧ k ≤ s.employees.length) →
      step todayStr s (.decision c k) = .invalid) ∧
    (∀ h1 : 1 ≤ k, ∀ h2 : k ≤ s.employees.length,
      step todayStr s (.decision c k) ≠ .invalid ∧
      (∀ s', step todayStr s (.decision c k) = .next s' →
        (s.employees[k - 1]).id ∈ s'.acc.map Prod.fst ∧
        s'.employees = s.employees) ∧
      (∀ recs, step todayStr s (.decision c k) = .finished recs →
        (s.employees[k - 1]).id ∈
          recs.map Record.employee_id)) := by
  obtain ⟨emps, ci, acc, ph⟩ := s
  cases hph
  dsimp only
  constructor
  · intro hrange
    show handle_attendance_choice todayStr _ c k = .invalid
    unfold handle_attendance_choice lookupSimple
    rw [dif_neg (by simpa using hrange)]
  · intro h1 h2
    have hlt : k - 1 < emps.length := by omega
    have hlook := lookupSimple_eq_some emps k h1 h2
    have hac : handle_attendance_choice todayStr ⟨emps, ci, acc, .marking⟩
        c k =
        match c with
        | .absent => .next ⟨emps, ci,
            upsert acc (emps[k - 1]).id ⟨.absent, none⟩,
            .gettingReason (emps[k - 1]).id⟩
        | .present => next_employee todayStr ⟨emps, ci,
            upsert acc (emps[k - 1]).id ⟨.present, none⟩, .marking⟩ := by
      cases c <;> (unfold handle_attendance_choice; rw [hlook])
    have hstep : step todayStr ⟨emps, ci, acc, .marking⟩ (.decision c k) =
        handle_attendance_choice todayStr ⟨emps, ci, acc, .marking⟩ c k :=
      rfl
    rw [hstep, hac]
    cases c with
    | absent =>
      refine ⟨by simp, ?_, ?_⟩
      · intro s' hs'
        simp only [StepResult.next.injEq] at hs'
        subst hs'
        exact ⟨mem_keys_upsert acc _ _, rfl⟩
      · intro recs hrecs
        simp at hrecs
    | present =>
      by_cases hend : ci + 1 ≥ emps.length
      · rw [next_employee_last todayStr _ hend]
        refine ⟨by simp, by simp, ?_⟩
        intro recs hrecs
        simp only [StepResult.finished.injEq] at hrecs
        subst hrecs
        rw [buildRecords_map_employee_id]
        exact mem_keys_upsert acc _ _
      · rw [next_employee_more todayStr _ hend]
        refine ⟨by simp, ?_, by simp⟩
        intro s' hs'
        simp only [StepResult.next.injEq] at hs'
        subst hs'
        exact ⟨mem_keys_upsert acc _ _, rfl⟩

/-- Witness for C3 (amended): in the two-employee session at cursor `0`, the
in-range decision `present_2` is not rejected. -/
theorem C3_decision_reference_validation_witness :
    step "d" ⟨[⟨"e1", "Alice", true⟩, ⟨"e2", "Bob", true⟩], 0, [], .marking⟩
      (.decision .present 2) ≠ .invalid :=
  ((C3_decision_reference_validation "d"
      ⟨[⟨"e1", "Alice", true⟩, ⟨"e2", "Bob", true⟩], 0, [], .marking⟩
      .present 2 rfl).2 (by decide) (by decide)).1

/-- C3 counterexample: in the two-employee session at cursor `0` (awaiting a
decision for employee #1), the decision event referencing employee #2 is
not rejected: it is accepted, records a status for employee #2 and advances
the cursor — the claim requires rejection with no state change. -/
theorem C3_counterexample_mismatched_reference_accepted :
    step "d" ⟨[⟨"e1", "Alice", true⟩, ⟨"e2", "Bob", true⟩], 0, [], .marking⟩
        (.decision .present 2) =
      .next ⟨[⟨"e1", "Alice", true⟩, ⟨"e2", "Bob", true⟩], 1,
        [("e2", ⟨.present, none⟩)], .marking⟩ ∧
    step "d" ⟨[⟨"e1", "Alice", true⟩, ⟨"e2", "Bob", true⟩], 0, [], .marking⟩
        (.decision .present 2) ≠ .invalid ∧
    ([("e2", (⟨.present, none⟩ : Entry))] ≠
      ([] : List (String × Entry))) := by
  refine ⟨by decide, by decide, by decide⟩

/- ## The record store (modelled from the spec: the MongoDB `attendance`
collection with its unique composite index) -/

/-- The unique composite key of the `attendance` collection
(`create_index([("employee_id", 1), ("date", 1)], unique=True)`). -/
def keyOf (r : Record) : String × String :=
  (r.employee_id, r.date)

/-- Whether the store already holds a record with the given key. -/
def hasKey (store : List Record) (k : String × String) : Bool :=
  store.any (fun r => keyOf r == k)

/-- Modelled from the spec: one insert attempt under the unique
`(employee_id, date)` index — a duplicate key fails and leaves the store
unchanged. -/
def insertOne (store : List Record) (r : Record) : List Record :=
  if hasKey store (keyOf r) then store else store ++ [r]

/-- Modelled from the spec: `insert_many(records, ordered=False)`, the
best-effort unordered batch insert of the record store — every record is
attempted and an individual duplicate-key failure does not abort the
sibling inserts. -/
def insertMany (store : List Record) (batch : List Record) : List Record :=
  batch.foldl insertOne store

/-- `finalize_attendance` seen at the store: build the batch from the
accumulator, submit it best-effort (the `try`/`except` around
`insert_many` only logs), and discard the session unconditionally
(`del context.user_data['attendance_flow']`). Returns the batch built, the
new store contents and the surviving session. -/
def finalize_attendance (todayStr : String) (s : Session)
    (store : List Record) :
    List Record × List Record × Option Session :=
  (buildRecords todayStr s.acc,
    insertMany store (buildRecords todayStr s.acc), none)

theorem hasKey_append_single (store : List Record) (b : Record)
    (k : String × String) :
    hasKey (store ++ [b]) k = (hasKey store k || (keyOf b == k)) := by
  simp [hasKey, List.any_append]

theorem mem_insertOne_of_mem {r : Record} {store : List Record} (b : Record)
    (h : r ∈ store) : r ∈ insertOne store b := by
  unfold insertOne
  by_cases hk : hasKey store (keyOf b)
  · rwa [if_pos hk]
  · rw [if_neg hk]
    exact List.mem_append_left _ h

theorem mem_insertMany_of_mem {r : Record} :
    ∀ (batch store : List Record), r ∈ store → r ∈ insertMany store batch
  | [], _, h => h
  | b :: batch, store, h =>
    mem_insertMany_of_mem batch (insertOne store b)
      (mem_insertOne_of_mem b h)

/-- In a batch with pairwise distinct keys, every record whose key is not
already in the store survives the best-effort batch insert. -/
theorem insertMany_mem_of_fresh :
    ∀ (batch store : List Record), ((batch.map keyOf)).Nodup →
    ∀ r ∈ batch, hasKey store (keyOf r) = false → r ∈ insertMany store batch
  | [], _, _, r, hr, _ => absurd hr (List.not_mem_nil r)
  | b :: batch, store, hnd, r, hr, hfresh => by
    have hnd' : (∀ x ∈ batch, ¬ keyOf x = keyOf b) ∧
        (batch.map keyOf).Nodup := by simpa using hnd
    rcases List.mem_cons.1 hr with hrb | hrb
    · subst hrb
      show r ∈ insertMany (insertOne store r) batch
      have hins : insertOne store r = store ++ [r] := by
        unfold insertOne
        rw [hfresh]
        rfl
      rw [hins]
      exact mem_insertMany_of_mem batch _ (List.mem_append_right _
        (List.mem_singleton_self r))
    · have hne : keyOf r ≠ keyOf b := hnd'.1 r hrb
      have hfresh' : hasKey (insertOne store b) (keyOf r) = false := by
        unfold insertOne
        by_cases hk : hasKey store (keyOf b)
        · rwa [if_pos hk]
        · rw [if_neg hk, hasKey_append_single]
          simp [hfresh, hne.symm]
      exact insertMany_mem_of_fresh batch (insertOne store b) hnd'.2 r hrb
        hfresh'

/-- C4: when exactly one record of the finalize batch collides with a
pre-existing (employee, date) key, every non-colliding record of the batch
is persisted, and the session is discarded whether or not any insert
failed. -/
theorem C4_finalize_partial_failure (todayStr : String) (s : Session)
    (store : List Record) (hnd : (s.acc.map Prod.fst).Nodup)
    (hone : (buildRecords todayStr s.acc).countP
      (fun r => hasKey store (keyOf r)) = 1) :
    (∀ r ∈ (finalize_attendance todayStr s store).1,
      hasKey store (keyOf r) = false →
      r ∈ (finalize_attendance todayStr s store).2.1) ∧
    (finalize_attendance todayStr s store).2.2 = none := by
  constructor
  · intro r hr hfresh
    have hbk : (buildRecords todayStr s.acc).map keyOf =
        (s.acc.map Prod.fst).map (fun x => (x, todayStr)) := by
      simp [buildRecords, keyOf, List.map_map]
    have hbnd : ((buildRecords todayStr s.acc).map keyOf).Nodup := by
      rw [hbk]
      exact hnd.map (fun a b h => by simpa using h)
    exact insertMany_mem_of_fresh _ store hbnd r hr hfresh
  · rfl

/-- Witness for C4: a two-record batch of which exactly the first collides
with the pre-existing store record. -/
theorem C4_finalize_partial_failure_witness :
    (((⟨[], 0, [("A", ⟨.present, none⟩), ("B", ⟨.absent, some "sick"⟩)],
        .marking⟩ : Session).acc.map Prod.fst).Nodup ∧
      (buildRecords "01-01-2025"
        (⟨[], 0, [("A", ⟨.present, none⟩), ("B", ⟨.absent, some "sick"⟩)],
          .marking⟩ : Session).acc).countP
        (fun r => hasKey [⟨"A", "01-01-2025", .present, ""⟩] (keyOf r)) =
        1) ∧
    ((∀ r ∈ (finalize_attendance "01-01-2025"
        ⟨[], 0, [("A", ⟨.present, none⟩), ("B", ⟨.absent, some "sick"⟩)],
          .marking⟩ [⟨"A", "01-01-2025", .present, ""⟩]).1,
      hasKey [⟨"A", "01-01-2025", .present, ""⟩] (keyOf r) = false →
      r ∈ (finalize_attendance "01-01-2025"
        ⟨[], 0, [("A", ⟨.present, none⟩), ("B", ⟨.absent, some "sick"⟩)],
          .marking⟩ [⟨"A", "01-01-2025", .present, ""⟩]).2.1) ∧
    (finalize_attendance "01-01-2025"
        ⟨[], 0, [("A", ⟨.present, none⟩), ("B", ⟨.absent, some "sick"⟩)],
          .marking⟩ [⟨"A", "01-01-2025", .present, ""⟩]).2.2 = none) :=
  ⟨⟨by decide, by decide⟩,
    C4_finalize_partial_failure "01-01-2025"
      ⟨[], 0, [("A", ⟨.present, none⟩), ("B", ⟨.absent, some "sick"⟩)],
        .marking⟩ [⟨"A", "01-01-2025", .present, ""⟩]
      (by decide) (by decide)⟩

/- ## `multiday_absence` (bulk absence) -/

/-- The reason argument of `/multiday_absence`: the arguments beyond the
third are joined by spaces, defaulting to `"Not specified"` when absent. -/
def multidayReason (args : List String) : String :=
  if args.length > 3 then String.intercalate " " (args.drop 3)
  else "Not specified"

/-- The day loop of `multiday_absence`: walk the inclusive range one day at
a time, skipping Sundays and dates found in the holiday store, and build
one absent record (keyed by the formatted date) per remaining day. The
`while current_date <= end_date` loop is driven by the remaining day count
`fuel = end - current + 1`. `fmtDay` is `format_date` on day ordinals and
`isHoliday` the holiday-collection point lookup. -/
def multidayLoop (isHoliday : Nat → Bool) (fmtDay : Nat → String)
    (empId reason : String) : Nat → Nat → List Record
  | 0, _ => []
  | fuel + 1, current =>
    if weekday current == 6 then
      multidayLoop isHoliday fmtDay empId reason fuel (current + 1)
    else if isHoliday current then
      multidayLoop isHoliday fmtDay empId reason fuel (current + 1)
    else
      ⟨empId, fmtDay current, .absent, reason⟩ ::
        multidayLoop isHoliday fmtDay empId reason fuel (current + 1)

/-- `multiday_absence` after argument validation: reject ranges with
`start_date > end_date`, otherwise build the absence batch and submit it
best-effort. Returns the batch built and the new store contents. -/
def multiday_absence (isHoliday : Nat → Bool) (fmtDay : Nat → String)
    (empId reason : String) (startDay endDay : Nat) (store : List Record) :
    Option (List Record × List Record) :=
  if startDay > endDay then none
  else
    some (multidayLoop isHoliday fmtDay empId reason
        (endDay + 1 - startDay) startDay,
      insertMany store (multidayLoop isHoliday fmtDay empId reason
        (endDay + 1 - startDay) startDay))

/-- The dates of the inclusive range that are working days: neither the
weekly rest day (Sunday) nor a declared holiday. -/
def eligibleDays (isHoliday : Nat → Bool) (s e : Nat) : List Nat :=
  ((List.range (e + 1 - s)).map (s + ·)).filter
    (fun d => weekday d != 6 && !isHoliday d)

theorem multidayLoop_eq (isHol : Nat → Bool) (fmtDay : Nat → String)
    (empId reason : String) :
    ∀ (fuel current : Nat),
    multidayLoop isHol fmtDay empId reason fuel current =
      (((List.range fuel).map (current + ·)).filter
        (fun d => weekday d != 6 && !isHol d)).map
        (fun d => ⟨empId, fmtDay d, .absent, reason⟩)
  | 0, current => by simp [multidayLoop]
  | fuel + 1, current => by
    have hr : (List.range (fuel + 1)).map (current + ·) =
        current :: (List.range fuel).map ((current + 1) + ·) := by
      rw [List.range_succ_eq_map, List.map_cons, List.map_map]
      have hf : ((current + ·) ∘ Nat.succ) = ((current + 1) + ·) := by
        funext d
        simp [Function.comp]
        omega
      rw [hf]
      simp
    rw [hr, List.filter_cons]
    by_cases h6 : weekday current == 6
    · have hc : (weekday current != 6 && !isHol current) = false := by
        simp at h6
        simp [h6]
      rw [if_neg (by simp [hc])]
      show multidayLoop isHol fmtDay empId reason (fuel + 1) current = _
      unfold multidayLoop
      rw [if_pos h6]
      exact multidayLoop_eq isHol fmtDay empId reason fuel (current + 1)
    · by_cases hh : isHol current
      · have hc : (weekday current != 6 && !isHol current) = false := by
          simp [hh]
        rw [if_neg (by simp [hc])]
        show multidayLoop isHol fmtDay empId reason (fuel + 1) current = _
        unfold multidayLoop
        rw [if_neg h6, if_pos hh]
        exact multidayLoop_eq isHol fmtDay empId reason fuel (current + 1)
      · have hc : (weekday current != 6 && !isHol current) = true := by
          simp at h6 ⊢
          exact ⟨h6, by simpa using hh⟩
        rw [if_pos (by simp [hc])]
        show multidayLoop isHol fmtDay empId reason (fuel + 1) current = _
        unfold multidayLoop
        rw [if_neg h6, if_neg hh]
        rw [multidayLoop_eq isHol fmtDay empId reason fuel (current + 1)]
        rfl

/-- C7: for `start <= end` the bulk-absence operation builds exactly one
absent record per date of the inclusive range that is neither a Sunday nor
a declared holiday, with the given reason attached to all of them; in
particular a 10-day range containing one holiday and one Sunday yields
exactly 8 absent records, all inserted into an empty store. -/
theorem C7_multiday_absence_one_record_per_working_day
    (isHol : Nat → Bool) (fmtDay : Nat → String) (empId reason : String)
    (s e : Nat) (hse : s ≤ e) :
    (∃ records storeOut,
      multiday_absence isHol fmtDay empId reason s e [] =
        some (records, storeOut) ∧
      records = (eligibleDays isHol s e).map
        (fun d => ⟨empId, fmtDay d, .absent, reason⟩) ∧
      records.length = (eligibleDays isHol s e).length ∧
      ∀ r ∈ records, r.status = .absent ∧ r.reason = reason) ∧
    ((multiday_absence (fun d => d == 10) (fun d => d.repr) "X" "Vacation"
        7 16 []).map (fun p => (p.1.length, p.2.length,
          p.1.all (fun r => r.status == .absent &&
            r.reason == "Vacation"))) = some (8, 8, true)) := by
  constructor
  · refine ⟨multidayLoop isHol fmtDay empId reason (e + 1 - s) s,
      insertMany [] (multidayLoop isHol fmtDay empId reason (e + 1 - s) s),
      ?_, multidayLoop_eq isHol fmtDay empId reason _ s, ?_, ?_⟩
    · unfold multiday_absence
      rw [if_neg (by omega)]
    · rw [multidayLoop_eq isHol fmtDay empId reason _ s]
      simp [eligibleDays]
    · intro r hr
      rw [multidayLoop_eq isHol fmtDay empId reason _ s] at hr
      obtain ⟨d, _, hd⟩ := List.mem_map.1 hr
      exact ⟨by rw [← hd], by rw [← hd]⟩
  · decide

/-- Witness for C7 at a concrete range (the scenario range itself). -/
theorem C7_multiday_absence_one_record_per_working_day_witness :
    7 ≤ 16 ∧
    ((∃ records storeOut,
      multiday_absence (fun d => d == 10) (fun d => d.repr) "X" "Vacation"
          7 16 [] = some (records, storeOut) ∧
      records = (eligibleDays (fun d => d == 10) 7 16).map
        (fun d => ⟨"X", d.repr, .absent, "Vacation"⟩) ∧
      records.length = (eligibleDays (fun d => d == 10) 7 16).length ∧
      ∀ r ∈ records, r.status = .absent ∧ r.reason = "Vacation") ∧
    ((multiday_absence (fun d => d == 10) (fun d => d.repr) "X" "Vacation"
        7 16 []).map (fun p => (p.1.length, p.2.length,
          p.1.all (fun r => r.status == .absent &&
            r.reason == "Vacation"))) = some (8, 8, true))) :=
  ⟨by decide, C7_multiday_absence_one_record_per_working_day
    (fun d => d == 10) (fun d => d.repr) "X" "Vacation" 7 16 (by decide)⟩

/- ## C10: the reason fields of inserted records -/

/-- Invariant of reachable sessions: accumulator keys are unique, entries
with status present never hold a reason, and while a reason is awaited the
awaited employee's entry is an absent entry. -/
def SessionInv (s : Session) : Prop :=
  (s.acc.map Prod.fst).Nodup ∧
  (∀ p ∈ s.acc, p.2.status = .present → p.2.reason = none) ∧
  (∀ eId, s.phase = .gettingReason eId →
    ∀ p ∈ s.acc, p.1 = eId → p.2.status = .absent)

theorem keys_upsert (acc : List (String × Entry)) (k : String) (v : Entry) :
    (upsert acc k v).map Prod.fst =
      if k ∈ acc.map Prod.fst then acc.map Prod.fst
      else acc.map Prod.fst ++ [k] := by
  unfold upsert
  by_cases h : acc.any (fun p => p.1 == k)
  · rw [if_pos h, if_pos ((any_key_iff acc k).1 h), List.map_map]
    apply List.map_congr_left
    intro p _
    by_cases hpk : p.1 == k
    · simp only [Function.comp, hpk, if_true]
      exact (beq_iff_eq.1 hpk).symm
    · simp only [Function.comp, hpk]
      rfl
  · rw [if_neg h, if_neg (fun hm => h ((any_key_iff acc k).2 hm))]
    simp

theorem nodup_keys_upsert (acc : List (String × Entry)) (k : String)
    (v : Entry) (h : (acc.map Prod.fst).Nodup) :
    ((upsert acc k v).map Prod.fst).Nodup := by
  rw [keys_upsert]
  by_cases hm : k ∈ acc.map Prod.fst
  · rwa [if_pos hm]
  · rw [if_neg hm, List.nodup_append]
    refine ⟨h, by simp, ?_⟩
    intro a ha hb
    rw [List.mem_singleton.1 hb] at ha
    exact hm ha

theorem mem_upsert (acc : List (String × Entry)) (k : String) (v : Entry) :
    ∀ q ∈ upsert acc k v, q = (k, v) ∨ (q ∈ acc ∧ q.1 ≠ k) := by
  intro q hq
  unfold upsert at hq
  by_cases h : acc.any (fun p => p.1 == k)
  · rw [if_pos h] at hq
    obtain ⟨p, hp, hgp⟩ := List.mem_map.1 hq
    by_cases hpk : p.1 == k
    · rw [if_pos hpk] at hgp
      exact Or.inl hgp.symm
    · rw [if_neg hpk] at hgp
      subst hgp
      exact Or.inr ⟨hp, by simpa using hpk⟩
  · rcases List.mem_append.1 (by rwa [if_neg h] at hq) with hqa | hqk
    · refine Or.inr ⟨hqa, fun he => ?_⟩
      exact h ((any_key_iff acc k).2 (he ▸ List.mem_map_of_mem Prod.fst hqa))
    · exact Or.inl (List.mem_singleton.1 hqk)

theorem keys_setReason (acc : List (String × Entry)) (k r : String) :
    (setReason acc k r).map Prod.fst = acc.map Prod.fst := by
  unfold setReason
  rw [List.map_map]
  apply List.map_congr_left
  intro p _
  by_cases hpk : p.1 == k
  · simp [Function.comp, hpk]
  · simp [Function.comp, hpk]

theorem mem_setReason (acc : List (String × Entry)) (k r : String) :
    ∀ q ∈ setReason acc k r, ∃ p, p ∈ acc ∧
      ((p.1 ≠ k ∧ q = p) ∨
        (p.1 = k ∧ q = (p.1, { p.2 with reason := some r }))) := by
  intro q hq
  obtain ⟨p, hp, hgp⟩ := List.mem_map.1 hq
  refine ⟨p, hp, ?_⟩
  by_cases hpk : p.1 == k
  · rw [if_pos hpk] at hgp
    exact Or.inr ⟨beq_iff_eq.1 hpk, hgp.symm⟩
  · rw [if_neg hpk] at hgp
    exact Or.inl ⟨by simpa using hpk, hgp.symm⟩

theorem buildRecords_present_reason (todayStr : String)
    (acc : List (String × Entry))
    (h : ∀ p ∈ acc, p.2.status = .present → p.2.reason = none) :
    ∀ r ∈ buildRecords todayStr acc, r.status = .present →
      r.reason = "" := by
  intro r hr hst
  obtain ⟨p, hp, hpr⟩ := List.mem_map.1 hr
  have hstatus : p.2.status = .present := by
    rw [← hst, ← hpr]
  have := h p hp hstatus
  rw [← hpr]
  simp [this]

theorem sessionInv_start (emps : List Employee) :
    SessionInv (startSession emps) := by
  refine ⟨by simp [startSession], by simp [startSession], ?_⟩
  intro eId hphase
  simp [startSession] at hphase

theorem sessionInv_upsert (acc : List (String × Entry)) (k : String)
    (c : Status) (h : (acc.map Prod.fst).Nodup)
    (h2 : ∀ p ∈ acc, p.2.status = .present → p.2.reason = none) :
    ((upsert acc k ⟨c, none⟩).map Prod.fst).Nodup ∧
    (∀ p ∈ upsert acc k ⟨c, none⟩,
      p.2.status = .present → p.2.reason = none) := by
  refine ⟨nodup_keys_upsert acc k _ h, ?_⟩
  intro p hp hst
  rcases mem_upsert acc k _ p hp with hpk | ⟨hpa, _⟩
  · rw [hpk]
  · exact h2 p hpa hst

/-- One dispatched event preserves the session invariant, and a finalizing
event yields records whose present entries carry the empty reason. -/
theorem step_preserves_inv (todayStr : String) (s : Session) (ev : Event)
    (h : SessionInv s) :
    (∀ s', step todayStr s ev = .next s' → SessionInv s') ∧
    (∀ recs, step todayStr s ev = .finished recs →
      ∀ r ∈ recs, r.status = .present → r.reason = "") := by
  obtain ⟨emps, ci, acc, ph⟩ := s
  obtain ⟨hnd, hpres, hawait⟩ := h
  dsimp only at hnd hpres hawait
  cases ev with
  | decision c k =>
    cases ph with
    | gettingReason eId =>
      have hstep : step todayStr ⟨emps, ci, acc, .gettingReason eId⟩
          (.decision c k) = .invalid := rfl
      rw [hstep]
      refine ⟨fun s' hs' => ?_, fun recs hrecs => ?_⟩
      · cases hs'
      · cases hrecs
    | marking =>
      cases hlook : lookupSimple emps k with
      | none =>
        have hstep : step todayStr ⟨emps, ci, acc, .marking⟩
            (.decision c k) = .invalid := by
          show handle_attendance_choice todayStr ⟨emps, ci, acc, .marking⟩
            c k = _
          unfold handle_attendance_choice
          rw [hlook]
        rw [hstep]
        refine ⟨fun s' hs' => ?_, fun recs hrecs => ?_⟩
        · cases hs'
        · cases hrecs
      | some empId =>
        have hup := sessionInv_upsert acc empId c hnd hpres
        cases c with
        | absent =>
          have hstep : step todayStr ⟨emps, ci, acc, .marking⟩
              (.decision .absent k) =
              .next ⟨emps, ci, upsert acc empId ⟨.absent, none⟩,
                .gettingReason empId⟩ := by
            show handle_attendance_choice todayStr ⟨emps, ci, acc, .marking⟩
              .absent k = _
            unfold handle_attendance_choice
            rw [hlook]
          rw [hstep]
          refine ⟨?_, fun recs hrecs => ?_⟩
          case refine_2 => cases hrecs
          intro s' hs'
          simp only [StepResult.next.injEq] at hs'
          subst hs'
          refine ⟨hup.1, hup.2, ?_⟩
          intro eId' hph p hp hpk
          dsimp only at hph hp hpk
          cases hph
          rcases mem_upsert acc empId _ p hp with hpe | ⟨_, hpne⟩
          · rw [hpe]
          · exact absurd hpk hpne
        | present =>
          by_cases hend : ci + 1 ≥ emps.length
          · have hstep : step todayStr ⟨emps, ci, acc, .marking⟩
                (.decision .present k) =
                .finished (buildRecords todayStr
                  (upsert acc empId ⟨.present, none⟩)) := by
              show handle_attendance_choice todayStr
                ⟨emps, ci, acc, .marking⟩ .present k = _
              unfold handle_attendance_choice
              rw [hlook]
              show next_employee todayStr
                ⟨emps, ci, upsert acc empId ⟨.present, none⟩, .marking⟩ = _
              exact next_employee_last todayStr _ hend
            rw [hstep]
            refine ⟨fun s' hs' => ?_, ?_⟩
            · cases hs'
            · intro recs hrecs
              simp only [StepResult.finished.injEq] at hrecs
              subst hrecs
              exact buildRecords_present_reason todayStr _ hup.2
          · have hstep : step todayStr ⟨emps, ci, acc, .marking⟩
                (.decision .present k) =
                .next ⟨emps, ci + 1, upsert acc empId ⟨.present, none⟩,
                  .marking⟩ := by
              show handle_attendance_choice todayStr
                ⟨emps, ci, acc, .marking⟩ .present k = _
              unfold handle_attendance_choice
              rw [hlook]
              show next_employee todayStr
                ⟨emps, ci, upsert acc empId ⟨.present, none⟩, .marking⟩ = _
              exact next_employee_more todayStr _ hend
            rw [hstep]
            refine ⟨?_, fun recs hrecs => ?_⟩
            · intro s' hs'
              simp only [StepResult.next.injEq] at hs'
              subst hs'
              refine ⟨hup.1, hup.2, ?_⟩
              intro eId' hph
              dsimp only at hph
              cases hph
            · cases hrecs
  | reasonText t =>
    cases ph with
    | marking =>
      have hstep : step todayStr ⟨emps, ci, acc, .marking⟩
          (.reasonText t) = .invalid := rfl
      rw [hstep]
      refine ⟨fun s' hs' => ?_, fun recs hrecs => ?_⟩
      · cases hs'
      · cases hrecs
    | gettingReason eId =>
      have hsr : ∀ p ∈ setReason acc eId t,
          p.2.status = .present → p.2.reason = none := by
        intro p hp hst
        rcases mem_setReason acc eId t p hp with ⟨q, hq, hcase⟩
        rcases hcase with ⟨_, hpq⟩ | ⟨hqk, hpq⟩
        · rw [hpq]
          exact hpres q hq (by rw [← hst, hpq])
        · have habs : q.2.status = .absent := hawait eId rfl q hq hqk
          rw [hpq] at hst
          simp only at hst
          rw [habs] at hst
          cases hst
      by_cases hend : ci + 1 ≥ emps.length
      · have hstep : step todayStr ⟨emps, ci, acc, .gettingReason eId⟩
            (.reasonText t) =
            .finished (buildRecords todayStr (setReason acc eId t)) := by
          show handle_reason todayStr ⟨emps, ci, acc, .gettingReason eId⟩
            t = _
          show next_employee todayStr
            ⟨emps, ci, setReason acc eId t, .gettingReason eId⟩ = _
          exact next_employee_last todayStr _ hend
        rw [hstep]
        refine ⟨fun s' hs' => ?_, ?_⟩
        · cases hs'
        · intro recs hrecs
          simp only [StepResult.finished.injEq] at hrecs
          subst hrecs
          exact buildRecords_present_reason todayStr _ hsr
      · have hstep : step todayStr ⟨emps, ci, acc, .gettingReason eId⟩
            (.reasonText t) =
            .next ⟨emps, ci + 1, setReason acc eId t, .marking⟩ := by
          show handle_reason todayStr ⟨emps, ci, acc, .gettingReason eId⟩
            t = _
          show next_employee todayStr
            ⟨emps, ci, setReason acc eId t, .gettingReason eId⟩ = _
          exact next_employee_more todayStr _ hend
        rw [hstep]
        refine ⟨?_, fun recs hrecs => ?_⟩
        · intro s' hs'
          simp only [StepResult.next.injEq] at hs'
          subst hs'
          refine ⟨?_, hsr, ?_⟩
          · show ((setReason acc eId t).map Prod.fst).Nodup
            rw [keys_setReason]
            exact hnd
          · intro eId' hph
            dsimp only at hph
            cases hph
        · cases hrecs

/-- Any event trace from a session satisfying the invariant that reaches
Finalize produces records whose present entries carry reason `""`. -/
theorem runEvents_present_reason (todayStr : String) :
    ∀ (evs : List Event) (s : Session), SessionInv s →
    ∀ recs, runEvents todayStr s evs = .finished recs →
    ∀ r ∈ recs, r.status = .present → r.reason = ""
  | [], s, _, recs, hrun => by simp [runEvents] at hrun
  | ev :: evs, s, hinv, recs, hrun => by
    rw [runEvents] at hrun
    cases hstep : step todayStr s ev with
    | next s' =>
      rw [hstep] at hrun
      exact runEvents_present_reason todayStr evs s'
        ((step_preserves_inv todayStr s ev hinv).1 s' hstep) recs hrun
    | invalid =>
      rw [hstep] at hrun
      exact runEvents_present_reason todayStr evs s hinv recs hrun
    | finished recs0 =>
      rw [hstep] at hrun
      cases evs with
      | nil =>
        simp only [RunResult.finished.injEq] at hrun
        subst hrun
        exact (step_preserves_inv todayStr s ev hinv).2 recs0 hstep
      | cons e2 evs2 => cases hrun

/-- C10: every record the system inserts carries a reason string — the
finalize batch defaults a missing reason to `""` (in particular every
present record, in any run of the session machine from Start), and
bulk-absence attaches `"Not specified"` to every record when no reason
argument is supplied. -/
theorem C10_reason_defaults (todayStr : String) :
    (∀ acc : List (String × Entry), ∀ p ∈ acc, p.2.reason = none →
      (⟨p.1, todayStr, p.2.status, ""⟩ : Record) ∈
        buildRecords todayStr acc) ∧
    (∀ (emps : List Employee) (evs : List Event) (recs : List Record),
      runEvents todayStr (startSession emps) evs = .finished recs →
      ∀ r ∈ recs, r.status = .present → r.reason = "") ∧
    (∀ args : List String, args.length ≤ 3 →
      multidayReason args = "Not specified") ∧
    (∀ (isHol : Nat → Bool) (fmtDay : Nat → String) (empId : String)
      (args : List String) (fuel current : Nat), args.length ≤ 3 →
      ∀ r ∈ multidayLoop isHol fmtDay empId (multidayReason args)
        fuel current, r.reason = "Not specified") := by
  refine ⟨?_, ?_, ?_, ?_⟩
  · intro acc p hp hre
    have : (⟨p.1, todayStr, p.2.status, p.2.reason.getD ""⟩ : Record) ∈
        buildRecords todayStr acc := List.mem_map_of_mem _ hp
    rwa [hre] at this
  · intro emps evs recs hrun
    exact runEvents_present_reason todayStr evs (startSession emps)
      (sessionInv_start emps) recs hrun
  · intro args hlen
    unfold multidayReason
    rw [if_neg (by omega)]
  · intro isHol fmtDay empId args fuel current hlen r hr
    rw [multidayLoop_eq] at hr
    obtain ⟨d, _, hd⟩ := List.mem_map.1 hr
    have hre : r.reason = multidayReason args := by rw [← hd]
    rw [hre]
    unfold multidayReason
    rw [if_neg (by omega)]

/-- Witness for C10: a one-employee run ends with a present record whose
reason is the empty string. -/
theorem C10_reason_defaults_witness :
    (runEvents "01-01-2025" (startSession [⟨"e1", "Alice", true⟩])
        (mkEvents 1 [Dec.present]) =
      .finished [⟨"e1", "01-01-2025", .present, ""⟩]) ∧
    (∀ r ∈ [(⟨"e1", "01-01-2025", .present, ""⟩ : Record)],
      r.status = .present → r.reason = "") :=
  ⟨by decide, (C10_reason_defaults "01-01-2025").2.1 [⟨"e1", "Alice", true⟩]
    (mkEvents 1 [Dec.present]) [⟨"e1", "01-01-2025", .present, ""⟩]
    (by decide)⟩

/- ## The period aggregator (reporting engine) -/

/-- Python true division into `Option`: `none` is a raised
`ZeroDivisionError` (MongoDB's `$divide` by zero likewise errors the
aggregation). -/
def divOpt (a b : ℚ) : Option ℚ :=
  if b = 0 then none else some (a / b)

/-- One element of the `generate_period_report` pipeline output after
`$group` by employee, `$lookup`+`$unwind` against `employees`, and the
rate projection `multiply(divide(present, sum(present, absent)), 100)`. -/
structure EmpGroup where
  empId : String
  name : String
  present : Nat
  absent : Nat
  rate : Option ℚ
deriving DecidableEq, Repr

/-- The `$lookup` of an attendance record's `employee_id` against
`employees._id`. -/
def resolveEmp (emps : List Employee) (eid : String) : Option Employee :=
  emps.find? (fun e => e.id == eid)

/-- The pipeline group for one distinct employee id of the matched records:
`$unwind` drops the group when the id resolves to no employee document. -/
def groupFor (store : List Record) (sstr estr : String)
    (emps : List Employee) (g : String) : Option EmpGroup :=
  match resolveEmp emps g with
  | none => none
  | some emp =>
    some ⟨g, emp.name,
      (periodMatched store sstr estr).countP
        (fun r => r.employee_id == g && r.status == .present),
      (periodMatched store sstr estr).countP
        (fun r => r.employee_id == g && r.status == .absent),
      (divOpt
        ((periodMatched store sstr estr).countP
          (fun r => r.employee_id == g && r.status == .present))
        (((periodMatched store sstr estr).countP
            (fun r => r.employee_id == g && r.status == .present)) +
          ((periodMatched store sstr estr).countP
            (fun r => r.employee_id == g && r.status == .absent)))).map
        (fun q => q * 100)⟩

/-- The `generate_period_report` aggregation result: one group per distinct
employee id among the `$match`-ed records, minus the groups `$unwind`
drops. -/
def periodResults (store : List Record) (emps : List Employee)
    (sstr estr : String) : List EmpGroup :=
  (((periodMatched store sstr estr).map Record.employee_id).dedup).filterMap
    (groupFor store sstr estr emps)

/-- The global totals `generate_period_report` sums over the pipeline
output. -/
def periodTotals (store : List Record) (emps : List Employee)
    (sstr estr : String) : Nat × Nat :=
  (((periodResults store emps sstr estr).map EmpGroup.present).sum,
    ((periodResults store emps sstr estr).map EmpGroup.absent).sum)

/-- The tail of `generate_period_report`: the attendance-distribution lines
divide by `total_present + total_absent` with no guard; the report is
`none` when that division faults (`ZeroDivisionError`). -/
def generate_period_report (store : List Record) (emps : List Employee)
    (sstr estr : String) : Option (Nat × Nat × ℚ × ℚ) :=
  match (divOpt (periodTotals store emps sstr estr).1
      ((periodTotals store emps sstr estr).1 +
        (periodTotals store emps sstr estr).2)).map (fun q => q * 100),
    (divOpt (periodTotals store emps sstr estr).2
      ((periodTotals store emps sstr estr).1 +
        (periodTotals store emps sstr estr).2)).map (fun q => q * 100) with
  | some pp, some ap =>
    some ((periodTotals store emps sstr estr).1,
      (periodTotals store emps sstr estr).2, pp, ap)
  | _, _ => none

/-- `daily_report`'s counts: `count_documents({"date": d, "status": s})` —
direct store counts, no employee join. -/
def daily_counts (store : List Record) (dstr : String) : Nat × Nat :=
  (store.countP (fun r => r.date == dstr && r.status == .present),
    store.countP (fun r => r.date == dstr && r.status == .absent))

/-- `employee_report`'s attendance rate:
`round((present/total)*100) if total > 0 else 0` — the only division of the
employee summary, guarded by the `total > 0` test. -/
def employee_rate (present absent : Nat) : Option ℤ :=
  if present + absent > 0 then
    (divOpt present (present + absent)).map (fun q => round (q * 100))
  else some 0

/-- C5 (amended): the employee summary never faults — its guard covers
exactly the division's fault condition and yields 0 at zero totals; the
period pipeline's per-employee rates never divide by zero (an employee
with zero records in range is omitted from the results, not shown with
rate 0); but the period report's global distribution divides by the
combined total and faults exactly when the period holds no resolvable
records. -/
theorem C5_division_guards (present absent : Nat) (store : List Record)
    (emps : List Employee) (sstr estr : String) :
    (employee_rate present absent).isSome = true ∧
    (present + absent = 0 → employee_rate present absent = some 0) ∧
    (∀ g ∈ periodResults store emps sstr estr, g.rate.isSome = true) ∧
    ((generate_period_report store emps sstr estr).isSome = true ↔
      (periodTotals store emps sstr estr).1 +
        (periodTotals store emps sstr estr).2 ≠ 0) := by
  refine ⟨?_, ?_, ?_, ?_⟩
  · unfold employee_rate
    by_cases h : present + absent > 0
    · rw [if_pos h]
      have hz : ((present : ℚ) + (absent : ℚ)) ≠ 0 := by
        have : ((present + absent : Nat) : ℚ) ≠ 0 := by
          exact_mod_cast Nat.pos_iff_ne_zero.1 h
        push_cast at this
        exact this
      simp [divOpt, hz]
    · rw [if_neg h]
      rfl
  · intro h0
    unfold employee_rate
    rw [if_neg (by omega)]
  · intro g hg
    obtain ⟨gid, hgid, hgf⟩ := List.mem_filterMap.1 hg
    have hcnt : 0 < (periodMatched store sstr estr).countP
          (fun r => r.employee_id == gid && r.status == .present) +
        (periodMatched store sstr estr).countP
          (fun r => r.employee_id == gid && r.status == .absent) := by
      obtain ⟨r, hr, hre⟩ :=
        List.mem_map.1 (List.mem_dedup.1 hgid)
      cases hst : r.status with
      | present =>
        have : 0 < (periodMatched store sstr estr).countP
            (fun r => r.employee_id == gid && r.status == .present) :=
          List.countP_pos_iff.2 ⟨r, hr, by simp [hre, hst]⟩
        omega
      | absent =>
        have : 0 < (periodMatched store sstr estr).countP
            (fun r => r.employee_id == gid && r.status == .absent) :=
          List.countP_pos_iff.2 ⟨r, hr, by simp [hre, hst]⟩
        omega
    unfold groupFor at hgf
    cases hres : resolveEmp emps gid with
    | none =>
      rw [hres] at hgf
      cases hgf
    | some emp =>
      rw [hres] at hgf
      simp only [Option.some.injEq] at hgf
      subst hgf
      have hq : ((((periodMatched store sstr estr).countP
            (fun r => r.employee_id == gid && r.status == .present) : Nat) :
              ℚ) +
          (((periodMatched store sstr estr).countP
            (fun r => r.employee_id == gid && r.status == .absent) : Nat) :
              ℚ)) ≠ 0 := by
        intro hc
        rw [← Nat.cast_add] at hc
        exact (by omega : ¬ ((periodMatched store sstr estr).countP
            (fun r => r.employee_id == gid && r.status == .present) +
          (periodMatched store sstr estr).countP
            (fun r => r.employee_id == gid && r.status == .absent) = 0))
          (by exact_mod_cast hc)
      simp [divOpt, hq]
  · by_cases h : (periodTotals store emps sstr estr).1 +
        (periodTotals store emps sstr estr).2 = 0
    · have hq : (((periodTotals store emps sstr estr).1 : ℚ) +
          ((periodTotals store emps sstr estr).2 : ℚ)) = 0 := by
        rw [← Nat.cast_add]
        exact_mod_cast h
      unfold generate_period_report
      simp [divOpt, hq, h]
    · have hq : (((periodTotals store emps sstr estr).1 : ℚ) +
          ((periodTotals store emps sstr estr).2 : ℚ)) ≠ 0 := by
        rw [← Nat.cast_add]
        intro hc
        exact h (by exact_mod_cast hc)
      unfold generate_period_report
      simp [divOpt, hq, h]

/-- C5 counterexample: over a period containing no records the period
report's attendance-distribution division faults (`ZeroDivisionError`),
while the claim asserts no store contents and no range ever fault. -/
theorem C5_counterexample_empty_period_division_fault :
    generate_period_report [] [] "01-01-2025" "31-01-2025" = none := by
  have htot1 : (periodTotals [] [] "01-01-2025" "31-01-2025").1 = 0 := rfl
  have htot2 : (periodTotals [] [] "01-01-2025" "31-01-2025").2 = 0 := rfl
  unfold generate_period_report
  rw [htot1, htot2]
  simp [divOpt]

/-- Witness for C5: the zero-total employee summary and the fault
characterization at a store with one matched record. -/
theorem C5_division_guards_witness :
    ((0 : Nat) + 0 = 0 ∧ employee_rate 0 0 = some 0) ∧
    ((generate_period_report [⟨"A", "05-01-2025", .present, ""⟩]
        [⟨"A", "Ann", true⟩] "01-01-2025" "31-01-2025").isSome = true ↔
      (periodTotals [⟨"A", "05-01-2025", .present, ""⟩]
          [⟨"A", "Ann", true⟩] "01-01-2025" "31-01-2025").1 +
        (periodTotals [⟨"A", "05-01-2025", .present, ""⟩]
          [⟨"A", "Ann", true⟩] "01-01-2025" "31-01-2025").2 ≠ 0) :=
  ⟨⟨rfl, (C5_division_guards 0 0 [] [] "x" "y").2.1 rfl⟩,
    (C5_division_guards 0 0 [⟨"A", "05-01-2025", .present, ""⟩]
      [⟨"A", "Ann", true⟩] "01-01-2025" "31-01-2025").2.2.2⟩

/- ## C6: single-day period totals against the daily summary -/

/-- A single-day string range `[s, s]` matches exactly the records whose
date key equals `s`. -/
theorem periodMatch_self (s : String) (r : Record) :
    periodMatch s s r = (r.date == s) := by
  unfold periodMatch
  by_cases h : r.date = s
  · subst h
    simp [strLe_refl]
  · have h1 : (strLe s r.date && strLe r.date s) = false := by
      cases hs1 : strLe s r.date with
      | false => rfl
      | true =>
        cases hs2 : strLe r.date s with
        | false => rfl
        | true => exact absurd (strLe_antisymm hs2 hs1) h
    rw [h1]
    exact (beq_eq_false_iff_ne.2 h).symm

theorem sum_map_add {α : Type} (l : List α) (f g : α → Nat) :
    (l.map (fun x => f x + g x)).sum = (l.map f).sum + (l.map g).sum := by
  induction l with
  | nil => rfl
  | cons x t ih =>
    simp only [List.map_cons, List.sum_cons, ih]
    omega

theorem sum_ite_eq_single (keys : List String) (hnd : keys.Nodup)
    (k : String) (hk : k ∈ keys) (c : Bool) :
    (keys.map (fun g => if k == g && c then 1 else 0)).sum =
      if c then 1 else 0 := by
  induction keys with
  | nil => cases hk
  | cons a t ih =>
    have hnd' := List.nodup_cons.1 hnd
    rcases List.mem_cons.1 hk with hka | hkt
    · subst hka
      have htail : (t.map (fun g => if k == g && c then 1 else 0)).sum =
          0 := by
        apply List.sum_eq_zero
        intro y hy
        obtain ⟨g, hg, hgy⟩ := List.mem_map.1 hy
        have : k ≠ g := fun he => hnd'.1 (he ▸ hg)
        rw [← hgy]
        simp [this]
      simp only [List.map_cons, List.sum_cons, htail]
      simp
    · have hka : k ≠ a := fun he => hnd'.1 (he ▸ hkt)
      simp only [List.map_cons, List.sum_cons]
      rw [ih hnd'.2 hkt]
      simp [hka]

/-- Counting the matched records by distinct employee key partitions any
count over the matched records, provided every record's key is listed. -/
theorem countP_partition (keys : List String) (hnd : keys.Nodup) :
    ∀ (l : List Record) (P : Record → Bool),
    (∀ r ∈ l, r.employee_id ∈ keys) →
    (keys.map (fun g => l.countP
      (fun r => r.employee_id == g && P r))).sum = l.countP P := by
  intro l
  induction l with
  | nil =>
    intro P _
    simp
  | cons r t ih =>
    intro P hcov
    have hcovt : ∀ x ∈ t, x.employee_id ∈ keys := fun x hx =>
      hcov x (List.mem_cons_of_mem r hx)
    have hmap : keys.map (fun g => (r :: t).countP
          (fun x => x.employee_id == g && P x)) =
        keys.map (fun g => t.countP (fun x => x.employee_id == g && P x) +
          if r.employee_id == g && P r then 1 else 0) := by
      apply List.map_congr_left
      intro g _
      rw [List.countP_cons]
    rw [hmap, sum_map_add, ih P hcovt, List.countP_cons,
      sum_ite_eq_single keys hnd r.employee_id
        (hcov r (List.mem_cons_self r t)) (P r)]

theorem groupFor_eq_some (store : List Record) (sstr estr : String)
    (emps : List Employee) (g : String) (emp : Employee)
    (h : resolveEmp emps g = some emp) :
    groupFor store sstr estr emps g = some ⟨g, emp.name,
      (periodMatched store sstr estr).countP
        (fun r => r.employee_id == g && r.status == .present),
      (periodMatched store sstr estr).countP
        (fun r => r.employee_id == g && r.status == .absent),
      (divOpt
        ((periodMatched store sstr estr).countP
          (fun r => r.employee_id == g && r.status == .present))
        (((periodMatched store sstr estr).countP
            (fun r => r.employee_id == g && r.status == .present)) +
          ((periodMatched store sstr estr).countP
            (fun r => r.employee_id == g && r.status == .absent)))).map
        (fun q => q * 100)⟩ := by
  unfold groupFor
  rw [h]

theorem sum_present_groups (store : List Record) (emps : List Employee)
    (sstr estr : String) :
    ∀ keys : List String, (∀ g ∈ keys, ∃ e ∈ emps, e.id = g) →
    ((keys.filterMap (groupFor store sstr estr emps)).map
      EmpGroup.present).sum =
      (keys.map (fun g => (periodMatched store sstr estr).countP
        (fun r => r.employee_id == g && r.status == .present))).sum
  | [], _ => rfl
  | g :: keys, hres => by
    obtain ⟨e, he, heid⟩ := hres g (List.mem_cons_self g keys)
    have hfind : (resolveEmp emps g).isSome := by
      unfold resolveEmp
      rw [List.find?_isSome]
      exact ⟨e, he, by simp [heid]⟩
    obtain ⟨emp, hemp⟩ := Option.isSome_iff_exists.1 hfind
    rw [List.filterMap_cons, groupFor_eq_some store sstr estr emps g emp
      hemp]
    simp only [List.map_cons, List.sum_cons]
    rw [sum_present_groups store emps sstr estr keys
      (fun g' hg' => hres g' (List.mem_cons_of_mem g hg'))]

theorem sum_absent_groups (store : List Record) (emps : List Employee)
    (sstr estr : String) :
    ∀ keys : List String, (∀ g ∈ keys, ∃ e ∈ emps, e.id = g) →
    ((keys.filterMap (groupFor store sstr estr emps)).map
      EmpGroup.absent).sum =
      (keys.map (fun g => (periodMatched store sstr estr).countP
        (fun r => r.employee_id == g && r.status == .absent))).sum
  | [], _ => rfl
  | g :: keys, hres => by
    obtain ⟨e, he, heid⟩ := hres g (List.mem_cons_self g keys)
    have hfind : (resolveEmp emps g).isSome := by
      unfold resolveEmp
      rw [List.find?_isSome]
      exact ⟨e, he, by simp [heid]⟩
    obtain ⟨emp, hemp⟩ := Option.isSome_iff_exists.1 hfind
    rw [List.filterMap_cons, groupFor_eq_some store sstr estr emps g emp
      hemp]
    simp only [List.map_cons, List.sum_cons]
    rw [sum_absent_groups store emps sstr estr keys
      (fun g' hg' => hres g' (List.mem_cons_of_mem g hg'))]

/-- C6 (amended): over a single-day range the period summary's global
totals coincide with the daily summary's counts, provided every stored
record's employee reference resolves in the employee collection under the
`$lookup`'s equality; a record whose reference does not resolve is dropped
by `$unwind` from the period totals while the daily summary still counts
it. The embedding compares ids as equal strings; in the deployed code this
resolvability premise is not met even by system-inserted records, which
store `employee_id` as `str(emp['_id'])` while the `$lookup` joins against
the ObjectId `_id` (a BSON string never equals an ObjectId — hence
`employee_report` converts back with `ObjectId(emp_id)` for its direct
query). -/
theorem C6_single_day_period_totals (store : List Record)
    (emps : List Employee) (d : Date)
    (hres : ∀ r ∈ store, r.employee_id ∈ emps.map Employee.id) :
    periodTotals store emps (format_date d) (format_date d) =
      daily_counts store (format_date d) := by
  have hmatch : periodMatched store (format_date d) (format_date d) =
      store.filter (fun r => r.date == format_date d) := by
    unfold periodMatched
    apply List.filter_congr
    intro r _
    exact periodMatch_self (format_date d) r
  have hkeys : ∀ g ∈ ((periodMatched store (format_date d)
      (format_date d)).map Record.employee_id).dedup,
      ∃ e ∈ emps, e.id = g := by
    intro g hg
    obtain ⟨r, hr, hre⟩ := List.mem_map.1 (List.mem_dedup.1 hg)
    have hrs : r ∈ store := by
      rw [hmatch] at hr
      exact List.mem_of_mem_filter hr
    obtain ⟨e, he, hei⟩ := List.mem_map.1 (hres r hrs)
    exact ⟨e, he, by rw [hei, hre]⟩
  have hcov : ∀ r ∈ periodMatched store (format_date d) (format_date d),
      r.employee_id ∈ ((periodMatched store (format_date d)
        (format_date d)).map Record.employee_id).dedup :=
    fun r hr => List.mem_dedup.2 (List.mem_map_of_mem _ hr)
  have h1 : ((periodResults store emps (format_date d)
        (format_date d)).map EmpGroup.present).sum =
      store.countP (fun r => r.date == format_date d &&
        r.status == .present) := by
    unfold periodResults
    rw [sum_present_groups store emps (format_date d) (format_date d) _
      hkeys]
    rw [countP_partition _ (List.nodup_dedup _) _ _ hcov]
    rw [hmatch, List.countP_filter]
    exact List.countP_congr (fun r _ => by
      rw [Bool.and_comm])
  have h2 : ((periodResults store emps (format_date d)
        (format_date d)).map EmpGroup.absent).sum =
      store.countP (fun r => r.date == format_date d &&
        r.status == .absent) := by
    unfold periodResults
    rw [sum_absent_groups store emps (format_date d) (format_date d) _
      hkeys]
    rw [countP_partition _ (List.nodup_dedup _) _ _ hcov]
    rw [hmatch, List.countP_filter]
    exact List.countP_congr (fun r _ => by
      rw [Bool.and_comm])
  show (((periodResults store emps (format_date d)
      (format_date d)).map EmpGroup.present).sum,
    ((periodResults store emps (format_date d)
      (format_date d)).map EmpGroup.absent).sum) = _
  rw [h1, h2]
  rfl

/-- Witness for C6 at a one-record store whose employee resolves. -/
theorem C6_single_day_period_totals_witness :
    (∀ r ∈ [(⟨"A", format_date ⟨2025, 1, 5⟩, .present, ""⟩ : Record)],
      r.employee_id ∈ ([⟨"A", "Ann", true⟩] :
        List Employee).map Employee.id) ∧
    periodTotals [⟨"A", format_date ⟨2025, 1, 5⟩, .present, ""⟩]
        [⟨"A", "Ann", true⟩] (format_date ⟨2025, 1, 5⟩)
        (format_date ⟨2025, 1, 5⟩) =
      daily_counts [⟨"A", format_date ⟨2025, 1, 5⟩, .present, ""⟩]
        (format_date ⟨2025, 1, 5⟩) :=
  ⟨by decide, C6_single_day_period_totals
    [⟨"A", format_date ⟨2025, 1, 5⟩, .present, ""⟩] [⟨"A", "Ann", true⟩]
    ⟨2025, 1, 5⟩ (by decide)⟩

/-- C6 counterexample: a store record whose employee id resolves to no
employee document is dropped by the period pipeline's `$unwind` but counted
by the daily summary, so over the same single day the two disagree. -/
theorem C6_counterexample_unresolvable_employee :
    periodTotals [⟨"X", format_date ⟨2025, 1, 5⟩, .present, ""⟩] []
        (format_date ⟨2025, 1, 5⟩) (format_date ⟨2025, 1, 5⟩) = (0, 0) ∧
    daily_counts [⟨"X", format_date ⟨2025, 1, 5⟩, .present, ""⟩]
        (format_date ⟨2025, 1, 5⟩) = (1, 0) ∧
    ((0, 0) : Nat × Nat) ≠ (1, 0) := by
  exact ⟨by decide, by decide, by decide⟩

/- ## C8: the employee summary's recent absences -/

/-- `employee_report`'s absence query:
`find({"employee_id": id, "status": "absent"})`. -/
def absencesOf (store : List Record) (empId : String) : List Record :=
  store.filter (fun r => r.employee_id == empId && r.status == .absent)

instance : IsTotal Record dateDesc :=
  ⟨fun a b => (strLe_total b.date a.date).elim Or.inl Or.inr⟩

instance : IsTrans Record dateDesc :=
  ⟨fun _ _ _ hab hbc => strLe_trans hbc hab⟩

/-- `employee_report`'s recent-absence list:
`.sort("date", -1).limit(3)` — sort by descending DD-MM-YYYY string key,
keep the first three. -/
def recent_absences (store : List Record) (empId : String) : List Record :=
  ((absencesOf store empId).insertionSort dateDesc).take 3

/-- C8 (amended): the employee summary returns the top 3 absence records
under descending DD-MM-YYYY string order of their date keys (with their
reasons) — which coincides with calendar recency only while the string
order is monotone, e.g. within one month: the output is sorted descending
by string key, drawn from the employee's absences, and every absence left
out has a string key at most that of every record returned. -/
theorem C8_recent_absences_top3_by_string_key (store : List Record)
    (empId : String) :
    (recent_absences store empId).length =
      min 3 (absencesOf store empId).length ∧
    (recent_absences store empId).Sorted dateDesc ∧
    (∀ r ∈ recent_absences store empId, r ∈ absencesOf store empId) ∧
    (∀ r ∈ recent_absences store empId, ∀ q ∈ absencesOf store empId,
      q ∉ recent_absences store empId → strLe q.date r.date = true) := by
  have hsorted : ((absencesOf store empId).insertionSort dateDesc).Sorted
      dateDesc := List.sorted_insertionSort dateDesc _
  refine ⟨?_, ?_, ?_, ?_⟩
  · unfold recent_absences
    rw [List.length_take, List.length_insertionSort]
  · exact hsorted.sublist (List.take_sublist 3 _)
  · intro r hr
    have := List.take_subset 3 _ hr
    rwa [List.mem_insertionSort] at this
  · intro r hr q hq hqn
    have hqfull : q ∈ (absencesOf store empId).insertionSort dateDesc := by
      rwa [List.mem_insertionSort]
    have hsplit := List.take_append_drop 3
      ((absencesOf store empId).insertionSort dateDesc)
    have hpw : List.Pairwise dateDesc
        (((absencesOf store empId).insertionSort dateDesc).take 3 ++
          ((absencesOf store empId).insertionSort dateDesc).drop 3) := by
      rw [hsplit]
      exact hsorted
    have hqdrop : q ∈ ((absencesOf store empId).insertionSort
        dateDesc).drop 3 := by
      rcases List.mem_append.1 (by rw [hsplit]; exact hqfull) with h | h
      · exact absurd h hqn
      · exact h
    exact (List.pairwise_append.1 hpw).2.2 r hr q hqdrop

/-- Witness for C8: a concrete absence left out of the top three compares
at most the kept records' keys. -/
theorem C8_recent_absences_top3_by_string_key_witness :
    strLe "01-02-2025" "02-02-2025" = true :=
  (C8_recent_absences_top3_by_string_key
      [⟨"X", "30-01-2025", .absent, "r0"⟩,
        ⟨"X", "01-02-2025", .absent, "r1"⟩,
        ⟨"X", "02-02-2025", .absent, "r2"⟩,
        ⟨"X", "03-02-2025", .absent, "r3"⟩] "X").2.2.2
    ⟨"X", "02-02-2025", .absent, "r2"⟩ (by decide)
    ⟨"X", "01-02-2025", .absent, "r1"⟩ (by decide) (by decide)

/-- C8 counterexample: with absences on 30-01, 01-02, 02-02 and 03-02 the
query returns [30-01, 03-02, 02-02] — it includes 30-01-2025, which is
chronologically older than the excluded 01-02-2025, and its first element
is not the most recent absence — so the output is not the 3 most recent
records by calendar date, most-recent first. -/
theorem C8_counterexample_cross_month_recency :
    (recent_absences
        [⟨"X", "30-01-2025", .absent, "r0"⟩,
          ⟨"X", "01-02-2025", .absent, "r1"⟩,
          ⟨"X", "02-02-2025", .absent, "r2"⟩,
          ⟨"X", "03-02-2025", .absent, "r3"⟩] "X").map Record.date =
      ["30-01-2025", "03-02-2025", "02-02-2025"] ∧
    format_date ⟨2025, 1, 30⟩ = "30-01-2025" ∧
    format_date ⟨2025, 2, 1⟩ = "01-02-2025" ∧
    Date.chronLt ⟨2025, 1, 30⟩ ⟨2025, 2, 1⟩ ∧
    (⟨"X", "01-02-2025", .absent, "r1"⟩ : Record) ∈
      absencesOf
        [⟨"X", "30-01-2025", .absent, "r0"⟩,
          ⟨"X", "01-02-2025", .absent, "r1"⟩,
          ⟨"X", "02-02-2025", .absent, "r2"⟩,
          ⟨"X", "03-02-2025", .absent, "r3"⟩] "X" ∧
    (⟨"X", "01-02-2025", .absent, "r1"⟩ : Record) ∉
      recent_absences
        [⟨"X", "30-01-2025", .absent, "r0"⟩,
          ⟨"X", "01-02-2025", .absent, "r1"⟩,
          ⟨"X", "02-02-2025", .absent, "r2"⟩,
          ⟨"X", "03-02-2025", .absent, "r3"⟩] "X" := by
  exact ⟨by decide, by decide, by decide, by decide, by decide, by decide⟩

end AttendanceBot
